import Mathlib

/-!
Shallow embedding of the two rate limiters of this repository:

* `SlidingWindowRateLimiter` (src/task01/main.py): per-user deque of accepted
  timestamps, pruned against a trailing window.
* `ThrottlingRateLimiter` (src/task02/main.py): per-user last-accepted
  timestamp, compared against a minimum interval.

Timestamps are modelled as rationals (`ℚ`); the Python `dict` stores are
modelled as association lists with unique keys (the `keysNodup` predicate
captures the dict representation invariant).  Each method reads the clock
once; the single value `now` is passed explicitly, matching the spec's
injectable monotonic time source and the per-operation atomicity of §5.
-/

/-- Association-list lookup, mirroring `d[k]` / `k in d` on a Python dict. -/
def lookupKey {α : Type} : List (String × α) → String → Option α
  | [], _ => none
  | (k, v) :: rest, u => if k = u then some v else lookupKey rest u

/-- Association-list update `d[k] = v`: replace the first binding of `k`,
or append a fresh binding (Python dicts append new keys at the end). -/
def setKey {α : Type} : List (String × α) → String → α → List (String × α)
  | [], u, v => [(u, v)]
  | (k, w) :: rest, u, v =>
    if k = u then (u, v) :: rest else (k, w) :: setKey rest u v

/-- Association-list deletion `del d[k]`: drop the first binding of `k`. -/
def eraseKey {α : Type} : List (String × α) → String → List (String × α)
  | [], _ => []
  | (k, w) :: rest, u => if k = u then rest else (k, w) :: eraseKey rest u

/-- The keys of an association list are pairwise distinct: the representation
invariant of a Python dict. -/
def keysNodup {α : Type} (s : List (String × α)) : Prop :=
  (s.map Prod.fst).Nodup

instance {α : Type} (s : List (String × α)) : Decidable (keysNodup s) :=
  inferInstanceAs (Decidable ((s.map Prod.fst).Nodup))

namespace AList

variable {α : Type}

theorem lookupKey_setKey_self (s : List (String × α)) (u : String) (v : α) :
    lookupKey (setKey s u v) u = some v := by
  induction s with
  | nil => simp [setKey, lookupKey]
  | cons p rest ih =>
    obtain ⟨k, w⟩ := p
    by_cases hk : k = u
    · simp [setKey, lookupKey, hk]
    · simp [setKey, lookupKey, hk, ih]

theorem lookupKey_setKey_ne (s : List (String × α)) (k u : String) (v : α)
    (h : k ≠ u) : lookupKey (setKey s k v) u = lookupKey s u := by
  induction s with
  | nil => simp [setKey, lookupKey, h]
  | cons p rest ih =>
    obtain ⟨k', w⟩ := p
    by_cases hk : k' = k
    · subst hk
      simp [setKey, lookupKey, h]
    · simp [setKey, lookupKey, hk, ih]

theorem lookupKey_eraseKey_ne (s : List (String × α)) (k u : String)
    (h : k ≠ u) : lookupKey (eraseKey s k) u = lookupKey s u := by
  induction s with
  | nil => simp [eraseKey]
  | cons p rest ih =>
    obtain ⟨k', w⟩ := p
    by_cases hk : k' = k
    · subst hk
      simp [eraseKey, lookupKey, h]
    · simp [eraseKey, lookupKey, hk, ih]

theorem lookupKey_eq_none_of_not_mem {s : List (String × α)} {u : String}
    (h : u ∉ s.map Prod.fst) : lookupKey s u = none := by
  induction s with
  | nil => rfl
  | cons p rest ih =>
    obtain ⟨k, w⟩ := p
    simp only [List.map_cons, List.mem_cons] at h
    push_neg at h
    have hk : k ≠ u := Ne.symm h.1
    simp only [lookupKey]
    rw [if_neg hk]
    exact ih h.2

theorem mem_eraseKey {s : List (String × α)} {u : String} {p : String × α}
    (hp : p ∈ eraseKey s u) : p ∈ s := by
  induction s with
  | nil => simp [eraseKey] at hp
  | cons q rest ih =>
    obtain ⟨k, w⟩ := q
    by_cases hk : k = u
    · simp only [eraseKey] at hp
      rw [if_pos hk] at hp
      exact List.mem_cons_of_mem _ hp
    · simp only [eraseKey] at hp
      rw [if_neg hk] at hp
      rcases List.mem_cons.mp hp with h1 | h1
      · rw [h1]; exact List.mem_cons_self _ _
      · exact List.mem_cons_of_mem _ (ih h1)

theorem mem_setKey {s : List (String × α)} {u : String} {v : α} {p : String × α}
    (hp : p ∈ setKey s u v) : p ∈ s ∨ p = (u, v) := by
  induction s with
  | nil =>
    simp only [setKey, List.mem_singleton] at hp
    right; exact hp
  | cons q rest ih =>
    obtain ⟨k, w⟩ := q
    by_cases hk : k = u
    · simp only [setKey] at hp
      rw [if_pos hk] at hp
      rcases List.mem_cons.mp hp with h1 | h1
      · right; exact h1
      · left; exact List.mem_cons_of_mem _ h1
    · simp only [setKey] at hp
      rw [if_neg hk] at hp
      rcases List.mem_cons.mp hp with h1 | h1
      · left; rw [h1]; exact List.mem_cons_self _ _
      · rcases ih h1 with h2 | h2
        · left; exact List.mem_cons_of_mem _ h2
        · right; exact h2

theorem mem_keys_eraseKey {s : List (String × α)} {u x : String}
    (hx : x ∈ (eraseKey s u).map Prod.fst) : x ∈ s.map Prod.fst := by
  rcases List.mem_map.mp hx with ⟨p, hp, hpx⟩
  exact List.mem_map.mpr ⟨p, mem_eraseKey hp, hpx⟩

theorem mem_keys_setKey {s : List (String × α)} {u x : String} {v : α}
    (hx : x ∈ (setKey s u v).map Prod.fst) : x ∈ s.map Prod.fst ∨ x = u := by
  rcases List.mem_map.mp hx with ⟨p, hp, hpx⟩
  rcases mem_setKey hp with h1 | h1
  · left; exact List.mem_map.mpr ⟨p, h1, hpx⟩
  · right; rw [h1] at hpx; exact hpx.symm

theorem lookupKey_eraseKey_self (s : List (String × α)) (u : String)
    (hs : keysNodup s) : lookupKey (eraseKey s u) u = none := by
  induction s with
  | nil => rfl
  | cons p rest ih =>
    obtain ⟨k, w⟩ := p
    simp only [keysNodup, List.map_cons, List.nodup_cons] at hs
    by_cases hk : k = u
    · simp only [eraseKey]
      rw [if_pos hk]
      rw [hk] at hs
      exact lookupKey_eq_none_of_not_mem hs.1
    · simp only [eraseKey]
      rw [if_neg hk]
      simp only [lookupKey]
      rw [if_neg hk]
      exact ih hs.2

theorem keysNodup_setKey (s : List (String × α)) (u : String) (v : α)
    (hs : keysNodup s) : keysNodup (setKey s u v) := by
  induction s with
  | nil => simp [setKey, keysNodup]
  | cons p rest ih =>
    obtain ⟨k, w⟩ := p
    simp only [keysNodup, List.map_cons, List.nodup_cons] at hs
    by_cases hk : k = u
    · simp only [setKey]
      rw [if_pos hk]
      rw [hk] at hs
      simp only [keysNodup, List.map_cons, List.nodup_cons]
      exact hs
    · simp only [setKey]
      rw [if_neg hk]
      simp only [keysNodup, List.map_cons, List.nodup_cons]
      refine ⟨?_, ih hs.2⟩
      intro hmem
      rcases mem_keys_setKey hmem with h1 | h1
      · exact hs.1 h1
      · exact hk h1

theorem keysNodup_eraseKey (s : List (String × α)) (u : String)
    (hs : keysNodup s) : keysNodup (eraseKey s u) := by
  induction s with
  | nil => simp [eraseKey, keysNodup]
  | cons p rest ih =>
    obtain ⟨k, w⟩ := p
    simp only [keysNodup, List.map_cons, List.nodup_cons] at hs
    by_cases hk : k = u
    · simp only [eraseKey]
      rw [if_pos hk]
      exact hs.2
    · simp only [eraseKey]
      rw [if_neg hk]
      simp only [keysNodup, List.map_cons, List.nodup_cons]
      exact ⟨fun hmem => hs.1 (mem_keys_eraseKey hmem), ih hs.2⟩

theorem lookupKey_mem {s : List (String × α)} {u : String} {v : α}
    (h : lookupKey s u = some v) : (u, v) ∈ s := by
  induction s with
  | nil => simp [lookupKey] at h
  | cons q rest ih =>
    obtain ⟨k, w⟩ := q
    by_cases hk : k = u
    · simp only [lookupKey] at h
      rw [if_pos hk] at h
      obtain rfl : w = v := Option.some.inj h
      rw [hk]
      exact List.mem_cons_self _ _
    · simp only [lookupKey] at h
      rw [if_neg hk] at h
      exact List.mem_cons_of_mem _ (ih h)

theorem setKey_setKey (s : List (String × α)) (u : String) (v w : α) :
    setKey (setKey s u v) u w = setKey s u w := by
  induction s with
  | nil => simp [setKey]
  | cons p rest ih =>
    obtain ⟨k, x⟩ := p
    by_cases hk : k = u
    · simp [setKey, hk]
    · simp [setKey, hk, ih]

end AList

/-- The sliding-window limiter of src/task01/main.py: a fixed window size and
request cap, plus the per-user store `user_windows` of accepted timestamps
(Python: `Dict[str, deque]`, oldest first). -/
structure SlidingWindowRateLimiter where
  window_size : ℚ
  max_requests : ℤ
  user_windows : List (String × List ℚ)
deriving DecidableEq

namespace SlidingWindowRateLimiter

/-- `SlidingWindowRateLimiter.__init__`: store both configuration values
verbatim and start with an empty store.  The source performs no validation. -/
def init (window_size : ℚ) (max_requests : ℤ) : SlidingWindowRateLimiter :=
  { window_size := window_size, max_requests := max_requests, user_windows := [] }

/-- `_cleanup_window(user_id, current_time)`: pop timestamps from the front
while the oldest is `≤ current_time - window_size`; delete the user's entry
if the deque becomes empty; do nothing for an unknown user. -/
def cleanup_window (st : SlidingWindowRateLimiter) (user_id : String)
    (current_time : ℚ) : SlidingWindowRateLimiter :=
  match lookupKey st.user_windows user_id with
  | none => st
  | some window =>
    let cutoff := current_time - st.window_size
    let window2 := window.dropWhile (fun t => t ≤ cutoff)
    if window2.isEmpty then
      { st with user_windows := eraseKey st.user_windows user_id }
    else
      { st with user_windows := setKey st.user_windows user_id window2 }

/-- `can_send_message(user_id)`: clean up, then allow iff the user is absent
or holds fewer than `max_requests` timestamps.  Returns the result together
with the mutated store. -/
def can_send_message (st : SlidingWindowRateLimiter) (user_id : String)
    (now : ℚ) : Bool × SlidingWindowRateLimiter :=
  let st1 := cleanup_window st user_id now
  match lookupKey st1.user_windows user_id with
  | none => (true, st1)
  | some window => (decide ((window.length : ℤ) < st1.max_requests), st1)

/-- `record_message(user_id)`: clean up, re-check via `can_send_message`
(which cleans up again), and on success append `now` to the user's deque
(creating it when absent). -/
def record_message (st : SlidingWindowRateLimiter) (user_id : String)
    (now : ℚ) : Bool × SlidingWindowRateLimiter :=
  let st1 := cleanup_window st user_id now
  let r := can_send_message st1 user_id now
  let st2 := r.2
  if r.1 then
    let window := (lookupKey st2.user_windows user_id).getD []
    (true, { st2 with user_windows := setKey st2.user_windows user_id (window ++ [now]) })
  else
    (false, st2)

/-- `time_until_next_allowed(user_id)`: clean up; `0.0` when the user is
absent or under the limit, else `max(oldest + window_size - now, 0.0)` with
`oldest` the front of the deque. -/
def time_until_next_allowed (st : SlidingWindowRateLimiter) (user_id : String)
    (now : ℚ) : ℚ × SlidingWindowRateLimiter :=
  let st1 := cleanup_window st user_id now
  match lookupKey st1.user_windows user_id with
  | none => (0, st1)
  | some window =>
    if (window.length : ℤ) < st1.max_requests then (0, st1)
    else
      let oldest := window.headD 0
      (max (oldest + st1.window_size - now) 0, st1)

end SlidingWindowRateLimiter

/-- The throttling limiter of src/task02/main.py: a fixed minimum interval
plus the per-user store `last_message_time` of last accepted timestamps. -/
structure ThrottlingRateLimiter where
  min_interval : ℚ
  last_message_time : List (String × ℚ)
deriving DecidableEq

namespace ThrottlingRateLimiter

/-- `ThrottlingRateLimiter.__init__`: store the interval verbatim and start
with an empty store.  The source performs no validation. -/
def init (min_interval : ℚ) : ThrottlingRateLimiter :=
  { min_interval := min_interval, last_message_time := [] }

/-- `can_send_message(user_id)`: allow iff the user was never seen or at
least `min_interval` elapsed since the last accepted message. -/
def can_send_message (st : ThrottlingRateLimiter) (user_id : String)
    (now : ℚ) : Bool :=
  match lookupKey st.last_message_time user_id with
  | none => true
  | some last_time => decide (st.min_interval ≤ now - last_time)

/-- `record_message(user_id)`: on success overwrite the user's last-seen
timestamp with `now`; otherwise leave the store untouched. -/
def record_message (st : ThrottlingRateLimiter) (user_id : String)
    (now : ℚ) : Bool × ThrottlingRateLimiter :=
  if can_send_message st user_id now then
    (true, { st with last_message_time := setKey st.last_message_time user_id now })
  else
    (false, st)

/-- `time_until_next_allowed(user_id)`: `0.0` for an unseen user, else
`max(min_interval - (now - last_time), 0.0)`.  No store mutation. -/
def time_until_next_allowed (st : ThrottlingRateLimiter) (user_id : String)
    (now : ℚ) : ℚ :=
  match lookupKey st.last_message_time user_id with
  | none => 0
  | some last_time => max (st.min_interval - (now - last_time)) 0

end ThrottlingRateLimiter

/-- Non-decreasing list of timestamps, oldest first: the sortedness
invariant of §3 of the spec for a user's window (Boolean so that concrete
instances evaluate by `decide`). -/
def isSortedQ : List ℚ → Bool
  | [] => true
  | [_] => true
  | a :: b :: rest => decide (a ≤ b) && isSortedQ (b :: rest)

namespace SlidingWindowRateLimiter

theorem cleanup_of_none {st : SlidingWindowRateLimiter} {u : String} {t : ℚ}
    (h : lookupKey st.user_windows u = none) : cleanup_window st u t = st := by
  simp [cleanup_window, h]

theorem cleanup_of_empty {st : SlidingWindowRateLimiter} {u : String} {t : ℚ}
    {w : List ℚ} (h : lookupKey st.user_windows u = some w)
    (he : (w.dropWhile (fun x => x ≤ t - st.window_size)).isEmpty = true) :
    cleanup_window st u t = { st with user_windows := eraseKey st.user_windows u } := by
  simp [cleanup_window, h, he]

theorem cleanup_of_nonempty {st : SlidingWindowRateLimiter} {u : String} {t : ℚ}
    {w : List ℚ} (h : lookupKey st.user_windows u = some w)
    (he : (w.dropWhile (fun x => x ≤ t - st.window_size)).isEmpty = false) :
    cleanup_window st u t =
      { st with user_windows :=
          setKey st.user_windows u (w.dropWhile (fun x => x ≤ t - st.window_size)) } := by
  simp [cleanup_window, h, he]

theorem window_size_cleanup (st : SlidingWindowRateLimiter) (u : String) (t : ℚ) :
    (cleanup_window st u t).window_size = st.window_size := by
  cases h : lookupKey st.user_windows u with
  | none => rw [cleanup_of_none h]
  | some w =>
    cases he : (w.dropWhile (fun x => x ≤ t - st.window_size)).isEmpty with
    | true => rw [cleanup_of_empty h he]
    | false => rw [cleanup_of_nonempty h he]

theorem max_requests_cleanup (st : SlidingWindowRateLimiter) (u : String) (t : ℚ) :
    (cleanup_window st u t).max_requests = st.max_requests := by
  cases h : lookupKey st.user_windows u with
  | none => rw [cleanup_of_none h]
  | some w =>
    cases he : (w.dropWhile (fun x => x ≤ t - st.window_size)).isEmpty with
    | true => rw [cleanup_of_empty h he]
    | false => rw [cleanup_of_nonempty h he]

theorem can_send_snd (st : SlidingWindowRateLimiter) (u : String) (now : ℚ) :
    (can_send_message st u now).2 = cleanup_window st u now := by
  simp only [can_send_message]
  cases h : lookupKey (cleanup_window st u now).user_windows u <;> simp [h]

theorem can_send_fst_of_none {st : SlidingWindowRateLimiter} {u : String} {now : ℚ}
    (h : lookupKey (cleanup_window st u now).user_windows u = none) :
    (can_send_message st u now).1 = true := by
  simp [can_send_message, h]

theorem can_send_fst_of_some {st : SlidingWindowRateLimiter} {u : String} {now : ℚ}
    {w : List ℚ} (h : lookupKey (cleanup_window st u now).user_windows u = some w) :
    (can_send_message st u now).1 = decide ((w.length : ℤ) < st.max_requests) := by
  simp [can_send_message, h, max_requests_cleanup]

theorem tu_snd (st : SlidingWindowRateLimiter) (u : String) (now : ℚ) :
    (time_until_next_allowed st u now).2 = cleanup_window st u now := by
  simp only [time_until_next_allowed]
  cases h : lookupKey (cleanup_window st u now).user_windows u with
  | none => simp [h]
  | some w =>
    by_cases hl : (w.length : ℤ) < (cleanup_window st u now).max_requests <;>
      simp [h, hl]

theorem tu_fst_of_none {st : SlidingWindowRateLimiter} {u : String} {now : ℚ}
    (h : lookupKey (cleanup_window st u now).user_windows u = none) :
    (time_until_next_allowed st u now).1 = 0 := by
  simp [time_until_next_allowed, h]

theorem tu_fst_of_lt {st : SlidingWindowRateLimiter} {u : String} {now : ℚ}
    {w : List ℚ} (h : lookupKey (cleanup_window st u now).user_windows u = some w)
    (hl : (w.length : ℤ) < st.max_requests) :
    (time_until_next_allowed st u now).1 = 0 := by
  rw [← max_requests_cleanup st u now] at hl
  simp [time_until_next_allowed, h, hl]

theorem tu_fst_of_ge {st : SlidingWindowRateLimiter} {u : String} {now : ℚ}
    {w : List ℚ} (h : lookupKey (cleanup_window st u now).user_windows u = some w)
    (hl : ¬ (w.length : ℤ) < st.max_requests) :
    (time_until_next_allowed st u now).1 =
      max (w.headD 0 + st.window_size - now) 0 := by
  rw [← max_requests_cleanup st u now] at hl
  simp [time_until_next_allowed, h, hl, window_size_cleanup]

theorem record_of_ok {st : SlidingWindowRateLimiter} {u : String} {now : ℚ}
    (h : (can_send_message (cleanup_window st u now) u now).1 = true) :
    record_message st u now =
      (true,
       { (can_send_message (cleanup_window st u now) u now).2 with
          user_windows :=
            setKey (can_send_message (cleanup_window st u now) u now).2.user_windows u
              (((lookupKey (can_send_message (cleanup_window st u now) u now).2.user_windows u).getD [])
                ++ [now]) }) := by
  simp only [record_message, h, if_true]

theorem record_of_notok {st : SlidingWindowRateLimiter} {u : String} {now : ℚ}
    (h : (can_send_message (cleanup_window st u now) u now).1 = false) :
    record_message st u now =
      (false, (can_send_message (cleanup_window st u now) u now).2) := by
  simp only [record_message, h, if_false, Bool.false_eq_true]

end SlidingWindowRateLimiter

namespace SlidingWindowRateLimiter

theorem lookup_cleanup_ne {st : SlidingWindowRateLimiter} {u v : String} {t : ℚ}
    (huv : u ≠ v) :
    lookupKey (cleanup_window st u t).user_windows v = lookupKey st.user_windows v := by
  cases h : lookupKey st.user_windows u with
  | none => rw [cleanup_of_none h]
  | some w =>
    cases he : (w.dropWhile (fun x => x ≤ t - st.window_size)).isEmpty with
    | true =>
      rw [cleanup_of_empty h he]
      exact AList.lookupKey_eraseKey_ne _ _ _ huv
    | false =>
      rw [cleanup_of_nonempty h he]
      exact AList.lookupKey_setKey_ne _ _ _ _ huv

theorem lookup_cleanup_self_of_none {st : SlidingWindowRateLimiter} {u : String}
    {t : ℚ} (h : lookupKey st.user_windows u = none) :
    lookupKey (cleanup_window st u t).user_windows u = none := by
  rw [cleanup_of_none h]
  exact h

theorem lookup_cleanup_self_of_empty {st : SlidingWindowRateLimiter} {u : String}
    {t : ℚ} {w : List ℚ} (hnd : keysNodup st.user_windows)
    (h : lookupKey st.user_windows u = some w)
    (he : (w.dropWhile (fun x => x ≤ t - st.window_size)).isEmpty = true) :
    lookupKey (cleanup_window st u t).user_windows u = none := by
  rw [cleanup_of_empty h he]
  exact AList.lookupKey_eraseKey_self _ _ hnd

theorem lookup_cleanup_self_of_nonempty {st : SlidingWindowRateLimiter} {u : String}
    {t : ℚ} {w : List ℚ} (h : lookupKey st.user_windows u = some w)
    (he : (w.dropWhile (fun x => x ≤ t - st.window_size)).isEmpty = false) :
    lookupKey (cleanup_window st u t).user_windows u =
      some (w.dropWhile (fun x => x ≤ t - st.window_size)) := by
  rw [cleanup_of_nonempty h he]
  exact AList.lookupKey_setKey_self _ _ _

theorem keysNodup_cleanup {st : SlidingWindowRateLimiter} {u : String} {t : ℚ}
    (hnd : keysNodup st.user_windows) :
    keysNodup (cleanup_window st u t).user_windows := by
  cases h : lookupKey st.user_windows u with
  | none => rw [cleanup_of_none h]; exact hnd
  | some w =>
    cases he : (w.dropWhile (fun x => x ≤ t - st.window_size)).isEmpty with
    | true =>
      rw [cleanup_of_empty h he]
      exact AList.keysNodup_eraseKey _ _ hnd
    | false =>
      rw [cleanup_of_nonempty h he]
      exact AList.keysNodup_setKey _ _ _ hnd

theorem cleanup_idem {st : SlidingWindowRateLimiter} {u : String} {t : ℚ}
    (hnd : keysNodup st.user_windows) :
    cleanup_window (cleanup_window st u t) u t = cleanup_window st u t := by
  cases h : lookupKey st.user_windows u with
  | none =>
    rw [cleanup_of_none h, cleanup_of_none h]
  | some w =>
    cases he : (w.dropWhile (fun x => x ≤ t - st.window_size)).isEmpty with
    | true =>
      have h2 : lookupKey (cleanup_window st u t).user_windows u = none :=
        lookup_cleanup_self_of_empty hnd h he
      rw [cleanup_of_none h2]
    | false =>
      have h2 := lookup_cleanup_self_of_nonempty h he
      have hws := window_size_cleanup st u t
      have hdw : ((w.dropWhile (fun x => x ≤ t - st.window_size)).dropWhile
          (fun x => x ≤ t - (cleanup_window st u t).window_size)) =
          w.dropWhile (fun x => x ≤ t - st.window_size) := by
        rw [hws]
        exact List.dropWhile_idempotent _ _
      have he2 : ((w.dropWhile (fun x => x ≤ t - st.window_size)).dropWhile
          (fun x => x ≤ t - (cleanup_window st u t).window_size)).isEmpty = false := by
        rw [hdw]; exact he
      rw [cleanup_of_nonempty h2 he2]
      rw [cleanup_of_nonempty h he]
      simp only [hws] at hdw
      simp only [hdw]
      rw [AList.setKey_setKey]

end SlidingWindowRateLimiter

/-- A value strictly inside the trailing window: the predicate an external
auditor uses for the half-open interval lower bound. -/
theorem countP_dropWhile_le {l : List ℚ} {c a : ℚ} (hca : c ≤ a) :
    (l.dropWhile (fun t => t ≤ c)).countP (fun t => a < t) =
      l.countP (fun t => a < t) := by
  conv_rhs => rw [← List.takeWhile_append_dropWhile (fun t => decide (t ≤ c)) l]
  rw [List.countP_append]
  have hz : (l.takeWhile (fun t => decide (t ≤ c))).countP (fun t => a < t) = 0 := by
    rw [List.countP_eq_zero]
    intro x hx
    have hxc : x ≤ c := by simpa using List.mem_takeWhile_imp hx
    simp only [decide_eq_true_eq]
    exact not_lt.mpr (hxc.trans hca)
  rw [hz]
  ring

theorem length_dropWhile_le_len (p : ℚ → Bool) (l : List ℚ) :
    (l.dropWhile p).length ≤ l.length :=
  (List.dropWhile_sublist p).length_le

theorem isSortedQ_cons {a : ℚ} {l : List ℚ} (h : isSortedQ (a :: l) = true) :
    isSortedQ l = true ∧ ∀ x ∈ l, a ≤ x := by
  induction l generalizing a with
  | nil => exact ⟨rfl, by simp⟩
  | cons b rest ih =>
    simp only [isSortedQ, Bool.and_eq_true, decide_eq_true_eq] at h
    obtain ⟨hab, hrest⟩ := h
    have h2 := ih hrest
    refine ⟨hrest, ?_⟩
    intro x hx
    rcases List.mem_cons.mp hx with h1 | h1
    · rw [h1]; exact hab
    · exact hab.trans (h2.2 x h1)

theorem isSortedQ_dropWhile {l : List ℚ} (p : ℚ → Bool)
    (h : isSortedQ l = true) : isSortedQ (l.dropWhile p) = true := by
  induction l with
  | nil => exact h
  | cons a rest ih =>
    by_cases hp : p a
    · rw [List.dropWhile_cons_of_pos hp]
      exact ih (isSortedQ_cons h).1
    · rw [List.dropWhile_cons_of_neg hp]
      exact h

theorem dropWhile_eq_filter_of_sorted {l : List ℚ} {c : ℚ}
    (h : isSortedQ l = true) :
    l.dropWhile (fun t => t ≤ c) = l.filter (fun t => c < t) := by
  induction l with
  | nil => rfl
  | cons a rest ih =>
    obtain ⟨hrest, hall⟩ := isSortedQ_cons h
    by_cases hac : a ≤ c
    · rw [List.dropWhile_cons_of_pos (by simpa using hac)]
      rw [List.filter_cons_of_neg (by simpa using not_lt.mpr hac)]
      exact ih hrest
    · rw [List.dropWhile_cons_of_neg (by simpa using hac)]
      rw [List.filter_cons_of_pos (by simpa using not_le.mp hac)]
      congr 1
      symm
      rw [List.filter_eq_self]
      intro x hx
      have : a ≤ x := hall x hx
      simp only [decide_eq_true_eq]
      exact lt_of_lt_of_le (not_le.mp hac) this

theorem isSortedQ_headD_le {l : List ℚ} (h : isSortedQ l = true) :
    ∀ x ∈ l, l.headD 0 ≤ x := by
  cases l with
  | nil => intro x hx; simp at hx
  | cons a rest =>
    intro x hx
    rcases List.mem_cons.mp hx with h1 | h1
    · rw [h1]; exact le_refl _
    · exact (isSortedQ_cons h).2 x h1

/-- No identity maps to an empty timestamp sequence: the store-cleanliness
invariant of §3 of the spec. -/
def noEmptyWindows (s : List (String × List ℚ)) : Prop :=
  ∀ p ∈ s, p.2 ≠ []

instance (s : List (String × List ℚ)) : Decidable (noEmptyWindows s) :=
  List.decidableBAll _ s

namespace SlidingWindowRateLimiter

theorem noEmpty_cleanup {st : SlidingWindowRateLimiter} {u : String} {t : ℚ}
    (h : noEmptyWindows st.user_windows) :
    noEmptyWindows (cleanup_window st u t).user_windows := by
  cases hk : lookupKey st.user_windows u with
  | none => rw [cleanup_of_none hk]; exact h
  | some w =>
    cases he : (w.dropWhile (fun x => x ≤ t - st.window_size)).isEmpty with
    | true =>
      rw [cleanup_of_empty hk he]
      intro p hp
      exact h p (AList.mem_eraseKey hp)
    | false =>
      rw [cleanup_of_nonempty hk he]
      intro p hp
      rcases AList.mem_setKey hp with h1 | h1
      · exact h p h1
      · rw [h1]
        simpa [List.isEmpty_iff] using he

theorem keysNodup_record {st : SlidingWindowRateLimiter} {u : String} {t : ℚ}
    (hnd : keysNodup st.user_windows) :
    keysNodup (record_message st u t).2.user_windows := by
  have hnd2 : keysNodup (cleanup_window (cleanup_window st u t) u t).user_windows :=
    keysNodup_cleanup (keysNodup_cleanup hnd)
  cases hok : (can_send_message (cleanup_window st u t) u t).1 with
  | true =>
    rw [record_of_ok hok]
    rw [can_send_snd]
    exact AList.keysNodup_setKey _ _ _ hnd2
  | false =>
    rw [record_of_notok hok]
    rw [can_send_snd]
    exact hnd2

theorem noEmpty_record {st : SlidingWindowRateLimiter} {u : String} {t : ℚ}
    (h : noEmptyWindows st.user_windows) :
    noEmptyWindows (record_message st u t).2.user_windows := by
  have h2 : noEmptyWindows (cleanup_window (cleanup_window st u t) u t).user_windows :=
    noEmpty_cleanup (noEmpty_cleanup h)
  cases hok : (can_send_message (cleanup_window st u t) u t).1 with
  | true =>
    rw [record_of_ok hok]
    rw [can_send_snd]
    intro p hp
    rcases AList.mem_setKey hp with h1 | h1
    · exact h2 p h1
    · rw [h1]
      simp
  | false =>
    rw [record_of_notok hok]
    rw [can_send_snd]
    exact h2

end SlidingWindowRateLimiter

/-- C2 counterexample: the constructors perform no validation.  With
`window_size = -1`, `max_requests = 0` and `min_interval = -5`, instances
are produced whose fields hold the rejected-by-the-claim values verbatim,
and they go on to accept a message. -/
theorem construction_rejects_nothing_cex :
    SlidingWindowRateLimiter.init (-1) 0 =
      { window_size := -1, max_requests := 0, user_windows := [] } ∧
    (SlidingWindowRateLimiter.record_message
        (SlidingWindowRateLimiter.init (-1) 0) "u" 0).1 = true ∧
    ThrottlingRateLimiter.init (-5) =
      { min_interval := -5, last_message_time := [] } ∧
    (ThrottlingRateLimiter.record_message
        (ThrottlingRateLimiter.init (-5)) "u" 0).1 = true := by
  refine ⟨rfl, ?_, rfl, ?_⟩ <;> decide

/-- C2 (amended): construction never fails: for every configuration value,
positive or not, each constructor returns an instance storing the values
verbatim, and the instance exhibits defined behavior (a first message from
a fresh identity is always accepted, whatever the configuration). -/
theorem construction_stores_config_verbatim (w : ℚ) (m : ℤ) (i : ℚ) :
    SlidingWindowRateLimiter.init w m =
      { window_size := w, max_requests := m, user_windows := [] } ∧
    ThrottlingRateLimiter.init i =
      { min_interval := i, last_message_time := [] } ∧
    (∀ u t, (SlidingWindowRateLimiter.record_message
        (SlidingWindowRateLimiter.init w m) u t).1 = true) ∧
    (∀ u t, (ThrottlingRateLimiter.record_message
        (ThrottlingRateLimiter.init i) u t).1 = true) := by
  refine ⟨rfl, rfl, ?_, ?_⟩
  · intro u t
    have h0 : lookupKey (SlidingWindowRateLimiter.init w m).user_windows u = none := rfl
    have hc : SlidingWindowRateLimiter.cleanup_window
        (SlidingWindowRateLimiter.init w m) u t = SlidingWindowRateLimiter.init w m :=
      SlidingWindowRateLimiter.cleanup_of_none h0
    have hok : (SlidingWindowRateLimiter.can_send_message
        (SlidingWindowRateLimiter.cleanup_window (SlidingWindowRateLimiter.init w m) u t)
        u t).1 = true := by
      rw [hc]
      exact SlidingWindowRateLimiter.can_send_fst_of_none (by rw [hc]; exact h0)
    rw [SlidingWindowRateLimiter.record_of_ok hok]
  · intro u t
    have h0 : ThrottlingRateLimiter.can_send_message
        (ThrottlingRateLimiter.init i) u t = true := rfl
    simp [ThrottlingRateLimiter.record_message, h0]

/-- C4: the throttling limiter's `can_send_message` returns true exactly when
the identity has no last-seen entry or `now - lastSeen ≥ min_interval`; the
inclusive boundary (`now - lastSeen = min_interval`) satisfies the right-hand
side and is therefore allowed. -/
theorem throttling_can_send_iff (st : ThrottlingRateLimiter) (u : String) (now : ℚ) :
    ThrottlingRateLimiter.can_send_message st u now = true ↔
      (lookupKey st.last_message_time u = none ∨
       ∃ last, lookupKey st.last_message_time u = some last ∧
         st.min_interval ≤ now - last) := by
  unfold ThrottlingRateLimiter.can_send_message
  cases h : lookupKey st.last_message_time u with
  | none => simp
  | some last => simp

/-- C7: after any of the three sliding-window operations, no identity maps to
an empty timestamp sequence, provided none did before: an identity whose
sequence empties via pruning is removed from the store entirely. -/
theorem sliding_no_empty_windows (st : SlidingWindowRateLimiter) (u : String)
    (now : ℚ) (h : noEmptyWindows st.user_windows) :
    noEmptyWindows (SlidingWindowRateLimiter.can_send_message st u now).2.user_windows ∧
    noEmptyWindows (SlidingWindowRateLimiter.record_message st u now).2.user_windows ∧
    noEmptyWindows (SlidingWindowRateLimiter.time_until_next_allowed st u now).2.user_windows := by
  refine ⟨?_, SlidingWindowRateLimiter.noEmpty_record h, ?_⟩
  · rw [SlidingWindowRateLimiter.can_send_snd]
    exact SlidingWindowRateLimiter.noEmpty_cleanup h
  · rw [SlidingWindowRateLimiter.tu_snd]
    exact SlidingWindowRateLimiter.noEmpty_cleanup h

/-- Witness for `sliding_no_empty_windows` at a concrete store whose only
entry expires entirely at the probed time. -/
theorem sliding_no_empty_windows_w :
    noEmptyWindows
      (SlidingWindowRateLimiter.record_message
        { window_size := 10, max_requests := 1, user_windows := [("u", [3])] }
        "u" 20).2.user_windows :=
  (sliding_no_empty_windows
    { window_size := 10, max_requests := 1, user_windows := [("u", [3])] }
    "u" 20 (by decide)).2.1

namespace SlidingWindowRateLimiter

theorem window_size_record (st : SlidingWindowRateLimiter) (u : String) (t : ℚ) :
    (record_message st u t).2.window_size = st.window_size := by
  cases hok : (can_send_message (cleanup_window st u t) u t).1 with
  | true =>
    rw [record_of_ok hok, can_send_snd]
    show (cleanup_window (cleanup_window st u t) u t).window_size = st.window_size
    rw [window_size_cleanup, window_size_cleanup]
  | false =>
    rw [record_of_notok hok, can_send_snd]
    show (cleanup_window (cleanup_window st u t) u t).window_size = st.window_size
    rw [window_size_cleanup, window_size_cleanup]

theorem max_requests_record (st : SlidingWindowRateLimiter) (u : String) (t : ℚ) :
    (record_message st u t).2.max_requests = st.max_requests := by
  cases hok : (can_send_message (cleanup_window st u t) u t).1 with
  | true =>
    rw [record_of_ok hok, can_send_snd]
    show (cleanup_window (cleanup_window st u t) u t).max_requests = st.max_requests
    rw [max_requests_cleanup, max_requests_cleanup]
  | false =>
    rw [record_of_notok hok, can_send_snd]
    show (cleanup_window (cleanup_window st u t) u t).max_requests = st.max_requests
    rw [max_requests_cleanup, max_requests_cleanup]

theorem lookup_record_ne {st : SlidingWindowRateLimiter} {a b : String} {t : ℚ}
    (hab : a ≠ b) :
    lookupKey (record_message st a t).2.user_windows b = lookupKey st.user_windows b := by
  cases hok : (can_send_message (cleanup_window st a t) a t).1 with
  | true =>
    rw [record_of_ok hok, can_send_snd]
    show lookupKey (setKey (cleanup_window (cleanup_window st a t) a t).user_windows a _) b = _
    rw [AList.lookupKey_setKey_ne _ _ _ _ hab,
        lookup_cleanup_ne hab, lookup_cleanup_ne hab]
  | false =>
    rw [record_of_notok hok, can_send_snd]
    show lookupKey (cleanup_window (cleanup_window st a t) a t).user_windows b = _
    rw [lookup_cleanup_ne hab, lookup_cleanup_ne hab]

theorem can_send_congr {st1 st2 : SlidingWindowRateLimiter} {v : String} {now : ℚ}
    (hw : st1.window_size = st2.window_size)
    (hm : st1.max_requests = st2.max_requests)
    (hnd1 : keysNodup st1.user_windows) (hnd2 : keysNodup st2.user_windows)
    (hl : lookupKey st1.user_windows v = lookupKey st2.user_windows v) :
    (can_send_message st1 v now).1 = (can_send_message st2 v now).1 := by
  cases hk : lookupKey st2.user_windows v with
  | none =>
    have hk1 : lookupKey st1.user_windows v = none := by rw [hl, hk]
    rw [can_send_fst_of_none (lookup_cleanup_self_of_none hk1),
        can_send_fst_of_none (lookup_cleanup_self_of_none hk)]
  | some w =>
    have hk1 : lookupKey st1.user_windows v = some w := by rw [hl, hk]
    cases he : (w.dropWhile (fun x => x ≤ now - st2.window_size)).isEmpty with
    | true =>
      have he1 : (w.dropWhile (fun x => x ≤ now - st1.window_size)).isEmpty = true := by
        rw [hw]; exact he
      rw [can_send_fst_of_none (lookup_cleanup_self_of_empty hnd1 hk1 he1),
          can_send_fst_of_none (lookup_cleanup_self_of_empty hnd2 hk he)]
    | false =>
      have he1 : (w.dropWhile (fun x => x ≤ now - st1.window_size)).isEmpty = false := by
        rw [hw]; exact he
      rw [can_send_fst_of_some (lookup_cleanup_self_of_nonempty hk1 he1),
          can_send_fst_of_some (lookup_cleanup_self_of_nonempty hk he)]
      rw [hm, hw]

end SlidingWindowRateLimiter

namespace ThrottlingRateLimiter

theorem thr_record_of_ok {st : ThrottlingRateLimiter} {u : String} {t : ℚ}
    (h : can_send_message st u t = true) :
    record_message st u t =
      (true, { st with last_message_time := setKey st.last_message_time u t }) := by
  simp [record_message, h]

theorem thr_record_of_notok {st : ThrottlingRateLimiter} {u : String} {t : ℚ}
    (h : can_send_message st u t = false) :
    record_message st u t = (false, st) := by
  simp [record_message, h]

theorem thr_can_send_congr {st1 st2 : ThrottlingRateLimiter} {v : String} {now : ℚ}
    (hm : st1.min_interval = st2.min_interval)
    (hl : lookupKey st1.last_message_time v = lookupKey st2.last_message_time v) :
    can_send_message st1 v now = can_send_message st2 v now := by
  unfold can_send_message
  rw [hl, hm]

end ThrottlingRateLimiter

/-- C3: the sliding-window `can_send_message` first prunes the identity's
sequence of every timestamp `t ≤ now - window_size` (an entry exactly at the
cutoff is expired; strictly greater is required to remain), then returns true
iff the remaining count is strictly below `max_requests`.  Stated for a store
satisfying the dict and sortedness representation invariants and a positive
request cap. -/
theorem sliding_can_send_prunes_then_counts (st : SlidingWindowRateLimiter)
    (u : String) (now : ℚ) (hM : 1 ≤ st.max_requests)
    (hnd : keysNodup st.user_windows)
    (hs : isSortedQ ((lookupKey st.user_windows u).getD []) = true) :
    ((SlidingWindowRateLimiter.can_send_message st u now).1 = true ↔
      ((((lookupKey st.user_windows u).getD []).filter
          (fun t => now - st.window_size < t)).length : ℤ) < st.max_requests) ∧
    (lookupKey (SlidingWindowRateLimiter.can_send_message st u now).2.user_windows u).getD [] =
      ((lookupKey st.user_windows u).getD []).filter
        (fun t => now - st.window_size < t) := by
  rw [SlidingWindowRateLimiter.can_send_snd]
  cases hk : lookupKey st.user_windows u with
  | none =>
    have hnone := SlidingWindowRateLimiter.lookup_cleanup_self_of_none (t := now) hk
    constructor
    · rw [SlidingWindowRateLimiter.can_send_fst_of_none hnone]
      simp only [hk, Option.getD_none, List.filter_nil, List.length_nil,
        Int.natCast_zero, true_iff]
      exact lt_of_lt_of_le zero_lt_one hM
    · rw [hnone]
      simp
  | some w =>
    rw [hk] at hs
    simp only [Option.getD_some] at hs
    have hfil : w.dropWhile (fun x => x ≤ now - st.window_size)
        = w.filter (fun t => now - st.window_size < t) :=
      dropWhile_eq_filter_of_sorted hs
    cases he : (w.dropWhile (fun x => x ≤ now - st.window_size)).isEmpty with
    | true =>
      have hnone := SlidingWindowRateLimiter.lookup_cleanup_self_of_empty hnd hk he
      have hfe : w.filter (fun t => decide (now - st.window_size < t)) = [] := by
        rw [← hfil]
        exact List.isEmpty_iff.mp he
      constructor
      · rw [SlidingWindowRateLimiter.can_send_fst_of_none hnone]
        simp only [hk, Option.getD_some, hfe, List.length_nil, Int.natCast_zero,
          true_iff]
        exact lt_of_lt_of_le zero_lt_one hM
      · rw [hnone]
        simp only [Option.getD_none, Option.getD_some, hfe]
    | false =>
      have hsome := SlidingWindowRateLimiter.lookup_cleanup_self_of_nonempty hk he
      constructor
      · rw [SlidingWindowRateLimiter.can_send_fst_of_some hsome]
        simp only [hk, Option.getD_some, hfil, decide_eq_true_eq]
      · rw [hsome]
        simp only [Option.getD_some, hfil]

/-- Witness for `sliding_can_send_prunes_then_counts`: with window 10 and cap
1, a user holding `[2, 5]` at time 13 keeps only `5` (2 is exactly at the
cutoff `3`... strictly, 2 ≤ 3 is pruned) and is denied. -/
theorem sliding_can_send_prunes_then_counts_w :
    ((SlidingWindowRateLimiter.can_send_message
        { window_size := 10, max_requests := 1, user_windows := [("u", [2, 5])] }
        "u" 13).1 = true ↔
      ((([2, 5].filter (fun t => (13:ℚ) - 10 < t)).length : ℤ) < 1)) ∧
    (lookupKey (SlidingWindowRateLimiter.can_send_message
        { window_size := 10, max_requests := 1, user_windows := [("u", [2, 5])] }
        "u" 13).2.user_windows "u").getD [] =
      [2, 5].filter (fun t => (13:ℚ) - 10 < t) :=
  sliding_can_send_prunes_then_counts
    { window_size := 10, max_requests := 1, user_windows := [("u", [2, 5])] }
    "u" 13 (by decide) (by decide) (by decide)

/-- C5: `time_until_next_allowed` after pruning returns exactly `0` when the
identity is absent or strictly under the cap; otherwise it returns
`max (oldest + window_size - now) 0` where `oldest` is the first element of
the remaining sequence (the smallest, whenever the sequence is sorted); and
the result is never negative. -/
theorem sliding_time_until_formula (st : SlidingWindowRateLimiter) (u : String)
    (now : ℚ) :
    0 ≤ (SlidingWindowRateLimiter.time_until_next_allowed st u now).1 ∧
    (lookupKey (SlidingWindowRateLimiter.cleanup_window st u now).user_windows u = none →
      (SlidingWindowRateLimiter.time_until_next_allowed st u now).1 = 0) ∧
    (∀ l, lookupKey (SlidingWindowRateLimiter.cleanup_window st u now).user_windows u = some l →
      ((l.length : ℤ) < st.max_requests →
        (SlidingWindowRateLimiter.time_until_next_allowed st u now).1 = 0) ∧
      (¬ (l.length : ℤ) < st.max_requests →
        (SlidingWindowRateLimiter.time_until_next_allowed st u now).1 =
          max (l.headD 0 + st.window_size - now) 0 ∧
        (isSortedQ l = true → ∀ x ∈ l, l.headD 0 ≤ x))) := by
  refine ⟨?_, ?_, ?_⟩
  · cases hk : lookupKey (SlidingWindowRateLimiter.cleanup_window st u now).user_windows u with
    | none => rw [SlidingWindowRateLimiter.tu_fst_of_none hk]
    | some l =>
      by_cases hl : (l.length : ℤ) < st.max_requests
      · rw [SlidingWindowRateLimiter.tu_fst_of_lt hk hl]
      · rw [SlidingWindowRateLimiter.tu_fst_of_ge hk hl]
        exact le_max_right _ _
  · intro hk
    rw [SlidingWindowRateLimiter.tu_fst_of_none hk]
  · intro l hk
    constructor
    · intro hl
      rw [SlidingWindowRateLimiter.tu_fst_of_lt hk hl]
    · intro hl
      exact ⟨SlidingWindowRateLimiter.tu_fst_of_ge hk hl,
             fun hsort => isSortedQ_headD_le hsort⟩

/-- Witness for `sliding_time_until_formula`: one stored timestamp `5`,
window 10, cap 1, at time 6, the wait is `max (5 + 10 - 6) 0 = 9 ≥ 0`. -/
theorem sliding_time_until_formula_w :
    0 ≤ (SlidingWindowRateLimiter.time_until_next_allowed
          { window_size := 10, max_requests := 1, user_windows := [("u", [5])] }
          "u" 6).1 ∧
    (SlidingWindowRateLimiter.time_until_next_allowed
          { window_size := 10, max_requests := 1, user_windows := [("u", [5])] }
          "u" 6).1 = max ((5:ℚ) + 10 - 6) 0 :=
  ⟨(sliding_time_until_formula
      { window_size := 10, max_requests := 1, user_windows := [("u", [5])] } "u" 6).1,
   (((sliding_time_until_formula
      { window_size := 10, max_requests := 1, user_windows := [("u", [5])] } "u" 6).2.2
      [5] (by norm_num [SlidingWindowRateLimiter.cleanup_window, lookupKey, setKey])).2
      (by decide)).1⟩

/-- C6: whenever `record_message` rejects, no timestamp is appended or
replaced: the sliding-window store after the call equals the store after
pruning alone, and the throttling store is exactly unchanged. -/
theorem rejection_is_atomic :
    (∀ (sw : SlidingWindowRateLimiter) (u : String) (t : ℚ),
      keysNodup sw.user_windows →
      (SlidingWindowRateLimiter.record_message sw u t).1 = false →
      (SlidingWindowRateLimiter.record_message sw u t).2 =
        SlidingWindowRateLimiter.cleanup_window sw u t) ∧
    (∀ (th : ThrottlingRateLimiter) (u : String) (t : ℚ),
      (ThrottlingRateLimiter.record_message th u t).1 = false →
      (ThrottlingRateLimiter.record_message th u t).2 = th) := by
  constructor
  · intro sw u t hnd hrej
    cases hok : (SlidingWindowRateLimiter.can_send_message
        (SlidingWindowRateLimiter.cleanup_window sw u t) u t).1 with
    | true =>
      rw [SlidingWindowRateLimiter.record_of_ok hok] at hrej
      simp at hrej
    | false =>
      rw [SlidingWindowRateLimiter.record_of_notok hok,
          SlidingWindowRateLimiter.can_send_snd]
      exact SlidingWindowRateLimiter.cleanup_idem hnd
  · intro th u t hrej
    cases hok : ThrottlingRateLimiter.can_send_message th u t with
    | true =>
      rw [ThrottlingRateLimiter.thr_record_of_ok hok] at hrej
      simp at hrej
    | false =>
      rw [ThrottlingRateLimiter.thr_record_of_notok hok]

/-- Witness for `rejection_is_atomic`: both limiters reject a second message
at time 6 after one accepted at time 5, leaving the pruned (sliding) resp.
original (throttle) store. -/
theorem rejection_is_atomic_w :
    (SlidingWindowRateLimiter.record_message
        { window_size := 10, max_requests := 1, user_windows := [("u", [5])] }
        "u" 6).1 = false ∧
    (SlidingWindowRateLimiter.record_message
        { window_size := 10, max_requests := 1, user_windows := [("u", [5])] }
        "u" 6).2 =
      SlidingWindowRateLimiter.cleanup_window
        { window_size := 10, max_requests := 1, user_windows := [("u", [5])] }
        "u" 6 ∧
    (ThrottlingRateLimiter.record_message
        { min_interval := 10, last_message_time := [("u", 5)] } "u" 6).1 = false ∧
    (ThrottlingRateLimiter.record_message
        { min_interval := 10, last_message_time := [("u", 5)] } "u" 6).2 =
      { min_interval := 10, last_message_time := [("u", 5)] } :=
  ⟨by norm_num [SlidingWindowRateLimiter.record_message,
     SlidingWindowRateLimiter.can_send_message,
     SlidingWindowRateLimiter.cleanup_window, lookupKey, setKey],
   rejection_is_atomic.1
     { window_size := 10, max_requests := 1, user_windows := [("u", [5])] }
     "u" 6 (by decide)
     (by norm_num [SlidingWindowRateLimiter.record_message,
       SlidingWindowRateLimiter.can_send_message,
       SlidingWindowRateLimiter.cleanup_window, lookupKey, setKey]),
   by norm_num [ThrottlingRateLimiter.record_message,
     ThrottlingRateLimiter.can_send_message, lookupKey],
   rejection_is_atomic.2
     { min_interval := 10, last_message_time := [("u", 5)] } "u" 6
     (by norm_num [ThrottlingRateLimiter.record_message,
       ThrottlingRateLimiter.can_send_message, lookupKey])⟩

/-- C9: for distinct identities `a ≠ b`, recording a message for `a` leaves
`b`'s stored state untouched and does not change the outcome of
`can_send_message(b)` evaluated at the same time, in both limiters (the
sliding-window store is assumed to satisfy the dict representation
invariant). -/
theorem identity_isolation (a b : String) (sw : SlidingWindowRateLimiter)
    (th : ThrottlingRateLimiter) (t : ℚ) (hab : a ≠ b)
    (hnd : keysNodup sw.user_windows) :
    (lookupKey (SlidingWindowRateLimiter.record_message sw a t).2.user_windows b =
        lookupKey sw.user_windows b ∧
      (SlidingWindowRateLimiter.can_send_message
          (SlidingWindowRateLimiter.record_message sw a t).2 b t).1 =
        (SlidingWindowRateLimiter.can_send_message sw b t).1) ∧
    (lookupKey (ThrottlingRateLimiter.record_message th a t).2.last_message_time b =
        lookupKey th.last_message_time b ∧
      ThrottlingRateLimiter.can_send_message
          (ThrottlingRateLimiter.record_message th a t).2 b t =
        ThrottlingRateLimiter.can_send_message th b t) := by
  constructor
  · have hl := @SlidingWindowRateLimiter.lookup_record_ne sw a b t hab
    refine ⟨hl, ?_⟩
    exact SlidingWindowRateLimiter.can_send_congr
      (SlidingWindowRateLimiter.window_size_record sw a t)
      (SlidingWindowRateLimiter.max_requests_record sw a t)
      (SlidingWindowRateLimiter.keysNodup_record hnd) hnd hl
  · cases hok : ThrottlingRateLimiter.can_send_message th a t with
    | true =>
      rw [ThrottlingRateLimiter.thr_record_of_ok hok]
      have hl : lookupKey (setKey th.last_message_time a t) b =
          lookupKey th.last_message_time b :=
        AList.lookupKey_setKey_ne _ _ _ _ hab
      exact ⟨hl, ThrottlingRateLimiter.thr_can_send_congr rfl hl⟩
    | false =>
      rw [ThrottlingRateLimiter.thr_record_of_notok hok]
      exact ⟨rfl, rfl⟩

/-- Witness for `identity_isolation` with identities "a" and "b" both
holding state. -/
theorem identity_isolation_w :
    lookupKey (SlidingWindowRateLimiter.record_message
        { window_size := 10, max_requests := 2, user_windows := [("a", [1]), ("b", [2])] }
        "a" 3).2.user_windows "b" = lookupKey
        ([("a", [1]), ("b", [2])] : List (String × List ℚ)) "b" ∧
    ThrottlingRateLimiter.can_send_message
        (ThrottlingRateLimiter.record_message
          { min_interval := 10, last_message_time := [("a", 1), ("b", 2)] } "a" 3).2 "b" 3 =
      ThrottlingRateLimiter.can_send_message
        { min_interval := 10, last_message_time := [("a", 1), ("b", 2)] } "b" 3 :=
  ⟨(identity_isolation "a" "b"
      { window_size := 10, max_requests := 2, user_windows := [("a", [1]), ("b", [2])] }
      { min_interval := 10, last_message_time := [("a", 1), ("b", 2)] }
      3 (by decide) (by decide)).1.1,
   (identity_isolation "a" "b"
      { window_size := 10, max_requests := 2, user_windows := [("a", [1]), ("b", [2])] }
      { min_interval := 10, last_message_time := [("a", 1), ("b", 2)] }
      3 (by decide) (by decide)).2.2⟩

/-- C10: in both limiters, `can_send_message` holds exactly when
`time_until_next_allowed` over the same state at the same time is `0` (the
sliding-window store is assumed to satisfy the dict representation
invariant). -/
theorem can_send_iff_time_until_zero (sw : SlidingWindowRateLimiter)
    (th : ThrottlingRateLimiter) (u : String) (now : ℚ)
    (hnd : keysNodup sw.user_windows) :
    ((SlidingWindowRateLimiter.can_send_message sw u now).1 = true ↔
      (SlidingWindowRateLimiter.time_until_next_allowed sw u now).1 = 0) ∧
    (ThrottlingRateLimiter.can_send_message th u now = true ↔
      ThrottlingRateLimiter.time_until_next_allowed th u now = 0) := by
  constructor
  · cases hk : lookupKey sw.user_windows u with
    | none =>
      have hnone := SlidingWindowRateLimiter.lookup_cleanup_self_of_none (t := now) hk
      rw [SlidingWindowRateLimiter.can_send_fst_of_none hnone,
          SlidingWindowRateLimiter.tu_fst_of_none hnone]
      simp
    | some w =>
      cases he : (w.dropWhile (fun x => x ≤ now - sw.window_size)).isEmpty with
      | true =>
        have hnone := SlidingWindowRateLimiter.lookup_cleanup_self_of_empty hnd hk he
        rw [SlidingWindowRateLimiter.can_send_fst_of_none hnone,
            SlidingWindowRateLimiter.tu_fst_of_none hnone]
        simp
      | false =>
        have hsome := SlidingWindowRateLimiter.lookup_cleanup_self_of_nonempty hk he
        by_cases hlen : (((w.dropWhile (fun x => x ≤ now - sw.window_size)).length : ℤ)
            < sw.max_requests)
        · rw [SlidingWindowRateLimiter.can_send_fst_of_some hsome,
              SlidingWindowRateLimiter.tu_fst_of_lt hsome hlen]
          simp [hlen]
        · rw [SlidingWindowRateLimiter.can_send_fst_of_some hsome,
              SlidingWindowRateLimiter.tu_fst_of_ge hsome hlen]
          have hne : w.dropWhile (fun x => x ≤ now - sw.window_size) ≠ [] := by
            intro hcon
            rw [hcon] at he
            simp at he
          have hhead := List.head_dropWhile_not
            (fun x => decide (x ≤ now - sw.window_size)) w hne
          have hgt : now - sw.window_size <
              (w.dropWhile (fun x => x ≤ now - sw.window_size)).head hne := by
            have := of_decide_eq_false hhead
            exact not_le.mp this
          have hhd : (w.dropWhile (fun x => x ≤ now - sw.window_size)).headD 0
              = (w.dropWhile (fun x => x ≤ now - sw.window_size)).head hne := by
            rw [List.headD_eq_head?_getD, List.head?_eq_head hne]
            rfl
          have hpos : 0 < (w.dropWhile (fun x => x ≤ now - sw.window_size)).headD 0
              + sw.window_size - now := by
            rw [hhd]
            linarith
          have hmax : max ((w.dropWhile (fun x => x ≤ now - sw.window_size)).headD 0
              + sw.window_size - now) 0
              = (w.dropWhile (fun x => x ≤ now - sw.window_size)).headD 0
              + sw.window_size - now := max_eq_left (le_of_lt hpos)
          rw [hmax]
          simp only [hlen, decide_eq_true_eq, false_iff]
          exact ne_of_gt hpos
  · unfold ThrottlingRateLimiter.can_send_message
      ThrottlingRateLimiter.time_until_next_allowed
    cases hk : lookupKey th.last_message_time u with
    | none => simp
    | some last =>
      simp only [decide_eq_true_eq]
      constructor
      · intro hle
        have : th.min_interval - (now - last) ≤ 0 := by linarith
        exact max_eq_right this
      · intro hmax
        by_contra hcon
        have hpos : 0 < th.min_interval - (now - last) := by
          push_neg at hcon
          linarith
        rw [max_eq_left (le_of_lt hpos)] at hmax
        exact absurd hmax (ne_of_gt hpos)

/-- Witness for `can_send_iff_time_until_zero` on stores with one busy
identity each. -/
theorem can_send_iff_time_until_zero_w :
    ((SlidingWindowRateLimiter.can_send_message
        { window_size := 10, max_requests := 1, user_windows := [("u", [5])] }
        "u" 6).1 = true ↔
      (SlidingWindowRateLimiter.time_until_next_allowed
        { window_size := 10, max_requests := 1, user_windows := [("u", [5])] }
        "u" 6).1 = 0) ∧
    (ThrottlingRateLimiter.can_send_message
        { min_interval := 10, last_message_time := [("u", 5)] } "u" 6 = true ↔
      ThrottlingRateLimiter.time_until_next_allowed
        { min_interval := 10, last_message_time := [("u", 5)] } "u" 6 = 0) :=
  can_send_iff_time_until_zero
    { window_size := 10, max_requests := 1, user_windows := [("u", [5])] }
    { min_interval := 10, last_message_time := [("u", 5)] } "u" 6 (by decide)

theorem dropWhile_head_not {p : ℚ → Bool} {l tl : List ℚ} {a : ℚ}
    (h : l.dropWhile p = a :: tl) : p a = false := by
  induction l with
  | nil => simp at h
  | cons x xs ih =>
    by_cases hx : p x
    · rw [List.dropWhile_cons_of_pos hx] at h
      exact ih h
    · rw [List.dropWhile_cons_of_neg hx] at h
      obtain rfl : x = a := (List.cons.injEq _ _ _ _ ▸ h).1
      simpa using hx

namespace SlidingWindowRateLimiter

theorem tu_mono_sliding (st : SlidingWindowRateLimiter) (u : String) (t1 t2 : ℚ)
    (hnd : keysNodup st.user_windows) (h12 : t1 ≤ t2)
    (hsort : isSortedQ ((lookupKey st.user_windows u).getD []) = true)
    (hcap : (((lookupKey st.user_windows u).getD []).length : ℤ) ≤ st.max_requests) :
    (time_until_next_allowed (time_until_next_allowed st u t1).2 u t2).1 ≤
      (time_until_next_allowed st u t1).1 ∧
    (t1 + (time_until_next_allowed st u t1).1 ≤ t2 →
      (time_until_next_allowed (time_until_next_allowed st u t1).2 u t2).1 = 0) := by
  rw [tu_snd]
  cases hk : lookupKey st.user_windows u with
  | none =>
    have hn1 : lookupKey (cleanup_window st u t1).user_windows u = none :=
      lookup_cleanup_self_of_none hk
    have hv1 : (time_until_next_allowed st u t1).1 = 0 := tu_fst_of_none hn1
    have hn2 : lookupKey (cleanup_window (cleanup_window st u t1) u t2).user_windows u
        = none := by
      rw [cleanup_of_none hn1]
      exact hn1
    have hv2 : (time_until_next_allowed (cleanup_window st u t1) u t2).1 = 0 :=
      tu_fst_of_none hn2
    rw [hv1, hv2]
    exact ⟨le_refl 0, fun _ => rfl⟩
  | some w =>
    rw [hk] at hsort hcap
    simp only [Option.getD_some] at hsort hcap
    cases he1 : (w.dropWhile (fun x => x ≤ t1 - st.window_size)).isEmpty with
    | true =>
      have hn1 : lookupKey (cleanup_window st u t1).user_windows u = none :=
        lookup_cleanup_self_of_empty hnd hk he1
      have hv1 : (time_until_next_allowed st u t1).1 = 0 := tu_fst_of_none hn1
      have hn2 : lookupKey (cleanup_window (cleanup_window st u t1) u t2).user_windows u
          = none := by
        rw [cleanup_of_none hn1]
        exact hn1
      have hv2 : (time_until_next_allowed (cleanup_window st u t1) u t2).1 = 0 :=
        tu_fst_of_none hn2
      rw [hv1, hv2]
      exact ⟨le_refl 0, fun _ => rfl⟩
    | false =>
      have hsome1 := lookup_cleanup_self_of_nonempty hk he1
      have hne1 : w.dropWhile (fun x => x ≤ t1 - st.window_size) ≠ [] := by
        simpa [List.isEmpty_iff] using he1
      obtain ⟨h1, tl, hw1⟩ : ∃ h1 tl,
          w.dropWhile (fun x => x ≤ t1 - st.window_size) = h1 :: tl := by
        cases hww : w.dropWhile (fun x => x ≤ t1 - st.window_size) with
        | nil => exact absurd hww hne1
        | cons a l => exact ⟨a, l, rfl⟩
      rw [hw1] at hsome1
      have hsort1 : isSortedQ (h1 :: tl) = true := by
        rw [← hw1]
        exact isSortedQ_dropWhile _ hsort
      have hlen1 : (((h1 :: tl).length : ℤ)) ≤ st.max_requests := by
        have hd := length_dropWhile_le_len (fun x => decide (x ≤ t1 - st.window_size)) w
        rw [hw1] at hd
        exact le_trans (Int.ofNat_le.mpr hd) hcap
      have hh1 : t1 - st.window_size < h1 := by
        have := dropWhile_head_not hw1
        simpa using this
      have hw_s1 : (cleanup_window st u t1).window_size = st.window_size :=
        window_size_cleanup st u t1
      have hm_s1 : (cleanup_window st u t1).max_requests = st.max_requests :=
        max_requests_cleanup st u t1
      have hnd_s1 : keysNodup (cleanup_window st u t1).user_windows :=
        keysNodup_cleanup hnd
      by_cases hlt1 : ((h1 :: tl).length : ℤ) < st.max_requests
      · -- under the cap at t1: wait is 0 now and stays 0
        have hv1 : (time_until_next_allowed st u t1).1 = 0 :=
          tu_fst_of_lt hsome1 hlt1
        have hv2 : (time_until_next_allowed (cleanup_window st u t1) u t2).1 = 0 := by
          cases he2 : ((h1 :: tl).dropWhile
              (fun x => x ≤ t2 - (cleanup_window st u t1).window_size)).isEmpty with
          | true =>
            exact tu_fst_of_none (lookup_cleanup_self_of_empty hnd_s1 hsome1 he2)
          | false =>
            refine tu_fst_of_lt (lookup_cleanup_self_of_nonempty hsome1 he2) ?_
            have hd := length_dropWhile_le_len
              (fun x => decide (x ≤ t2 - (cleanup_window st u t1).window_size)) (h1 :: tl)
            rw [hm_s1]
            exact lt_of_le_of_lt (Int.ofNat_le.mpr hd) hlt1
        rw [hv1, hv2]
        exact ⟨le_refl 0, fun _ => rfl⟩
      · -- at the cap at t1: positive wait governed by the oldest entry
        have hv1 : (time_until_next_allowed st u t1).1 =
            max (h1 + st.window_size - t1) 0 := by
          have := tu_fst_of_ge hsome1 hlt1
          simpa using this
        have hpos1 : 0 < h1 + st.window_size - t1 := by linarith
        have hv1x : (time_until_next_allowed st u t1).1 = h1 + st.window_size - t1 := by
          rw [hv1]
          exact max_eq_left hpos1.le
        by_cases hp2 : h1 ≤ t2 - (cleanup_window st u t1).window_size
        · -- the oldest entry expires by t2: the count falls below the cap
          have hw2 : (h1 :: tl).dropWhile
              (fun x => x ≤ t2 - (cleanup_window st u t1).window_size)
              = tl.dropWhile (fun x => x ≤ t2 - (cleanup_window st u t1).window_size) :=
            List.dropWhile_cons_of_pos (by simpa using hp2)
          have hv2 : (time_until_next_allowed (cleanup_window st u t1) u t2).1 = 0 := by
            cases he2 : ((h1 :: tl).dropWhile
                (fun x => x ≤ t2 - (cleanup_window st u t1).window_size)).isEmpty with
            | true =>
              exact tu_fst_of_none (lookup_cleanup_self_of_empty hnd_s1 hsome1 he2)
            | false =>
              refine tu_fst_of_lt (lookup_cleanup_self_of_nonempty hsome1 he2) ?_
              rw [hm_s1, hw2]
              have hd := length_dropWhile_le_len
                (fun x => decide (x ≤ t2 - (cleanup_window st u t1).window_size)) tl
              have hlt : ((tl.dropWhile
                  (fun x => x ≤ t2 - (cleanup_window st u t1).window_size)).length : ℤ)
                  ≤ (tl.length : ℤ) := Int.ofNat_le.mpr hd
              have hcons : ((h1 :: tl).length : ℤ) = (tl.length : ℤ) + 1 := by
                simp [List.length_cons]
              omega
          rw [hv2, hv1x]
          exact ⟨hpos1.le, fun _ => rfl⟩
        · -- the oldest entry is still inside the window at t2
          have hw2 : (h1 :: tl).dropWhile
              (fun x => x ≤ t2 - (cleanup_window st u t1).window_size) = h1 :: tl :=
            List.dropWhile_cons_of_neg (by simpa using hp2)
          have he2 : ((h1 :: tl).dropWhile
              (fun x => x ≤ t2 - (cleanup_window st u t1).window_size)).isEmpty = false := by
            rw [hw2]
            rfl
          have hsome2 := lookup_cleanup_self_of_nonempty hsome1 he2
          rw [hw2] at hsome2
          have hlt2 : ¬ ((h1 :: tl).length : ℤ) < (cleanup_window st u t1).max_requests := by
            rw [hm_s1]
            exact hlt1
          have hv2 : (time_until_next_allowed (cleanup_window st u t1) u t2).1 =
              max (h1 + st.window_size - t2) 0 := by
            have := tu_fst_of_ge hsome2 hlt2
            rw [hw_s1] at this
            simpa using this
          constructor
          · rw [hv2, hv1x]
            refine max_le (by linarith) hpos1.le
          · intro hdl
            rw [hv1x] at hdl
            rw [hw_s1] at hp2
            exact absurd (by linarith : h1 ≤ t2 - st.window_size) hp2
      
end SlidingWindowRateLimiter

/-- C8: with no intervening `record_message`, `time_until_next_allowed` is
non-increasing as the clock advances from `t1` to `t2 ≥ t1`, and it is
exactly `0` at or after the originally reported deadline `t1 + wait`, for
both limiters.  The sliding-window store is assumed to satisfy its
representation invariants (dict keys unique, the probed identity's sequence
sorted and within the cap). -/
theorem time_until_monotone_nonincreasing (sw : SlidingWindowRateLimiter)
    (th : ThrottlingRateLimiter) (u : String) (t1 t2 : ℚ)
    (hnd : keysNodup sw.user_windows) (h12 : t1 ≤ t2)
    (hsort : isSortedQ ((lookupKey sw.user_windows u).getD []) = true)
    (hcap : (((lookupKey sw.user_windows u).getD []).length : ℤ) ≤ sw.max_requests) :
    ((SlidingWindowRateLimiter.time_until_next_allowed
        (SlidingWindowRateLimiter.time_until_next_allowed sw u t1).2 u t2).1 ≤
      (SlidingWindowRateLimiter.time_until_next_allowed sw u t1).1 ∧
     (t1 + (SlidingWindowRateLimiter.time_until_next_allowed sw u t1).1 ≤ t2 →
      (SlidingWindowRateLimiter.time_until_next_allowed
        (SlidingWindowRateLimiter.time_until_next_allowed sw u t1).2 u t2).1 = 0)) ∧
    (ThrottlingRateLimiter.time_until_next_allowed th u t2 ≤
      ThrottlingRateLimiter.time_until_next_allowed th u t1 ∧
     (t1 + ThrottlingRateLimiter.time_until_next_allowed th u t1 ≤ t2 →
      ThrottlingRateLimiter.time_until_next_allowed th u t2 = 0)) := by
  refine ⟨SlidingWindowRateLimiter.tu_mono_sliding sw u t1 t2 hnd h12 hsort hcap, ?_⟩
  unfold ThrottlingRateLimiter.time_until_next_allowed
  cases hk : lookupKey th.last_message_time u with
  | none => exact ⟨le_refl 0, fun _ => rfl⟩
  | some last =>
    constructor
    · exact max_le_max (by linarith) (le_refl 0)
    · intro hdl
      have hub : th.min_interval - (t1 - last) ≤
          max (th.min_interval - (t1 - last)) 0 := le_max_left _ _
      have : th.min_interval - (t2 - last) ≤ 0 := by linarith
      exact max_eq_right this

/-- Witness for `time_until_monotone_nonincreasing`: one entry at time 5,
window and interval 10; from `t1 = 6` (wait 9, deadline 15) to `t2 = 16`
both waits drop to 0. -/
theorem time_until_monotone_nonincreasing_w :
    ((SlidingWindowRateLimiter.time_until_next_allowed
        (SlidingWindowRateLimiter.time_until_next_allowed
          { window_size := 10, max_requests := 1, user_windows := [("u", [5])] }
          "u" 6).2 "u" 16).1 ≤
      (SlidingWindowRateLimiter.time_until_next_allowed
        { window_size := 10, max_requests := 1, user_windows := [("u", [5])] }
        "u" 6).1) ∧
    (SlidingWindowRateLimiter.time_until_next_allowed
        (SlidingWindowRateLimiter.time_until_next_allowed
          { window_size := 10, max_requests := 1, user_windows := [("u", [5])] }
          "u" 6).2 "u" 16).1 = 0 ∧
    (ThrottlingRateLimiter.time_until_next_allowed
        { min_interval := 10, last_message_time := [("u", 5)] } "u" 16 ≤
      ThrottlingRateLimiter.time_until_next_allowed
        { min_interval := 10, last_message_time := [("u", 5)] } "u" 6) ∧
    ThrottlingRateLimiter.time_until_next_allowed
        { min_interval := 10, last_message_time := [("u", 5)] } "u" 16 = 0 :=
  ⟨(time_until_monotone_nonincreasing
      { window_size := 10, max_requests := 1, user_windows := [("u", [5])] }
      { min_interval := 10, last_message_time := [("u", 5)] }
      "u" 6 16 (by decide) (by decide) (by decide) (by decide)).1.1,
   (time_until_monotone_nonincreasing
      { window_size := 10, max_requests := 1, user_windows := [("u", [5])] }
      { min_interval := 10, last_message_time := [("u", 5)] }
      "u" 6 16 (by decide) (by decide) (by decide) (by decide)).1.2
     (by norm_num [SlidingWindowRateLimiter.time_until_next_allowed,
       SlidingWindowRateLimiter.cleanup_window, lookupKey, setKey]),
   (time_until_monotone_nonincreasing
      { window_size := 10, max_requests := 1, user_windows := [("u", [5])] }
      { min_interval := 10, last_message_time := [("u", 5)] }
      "u" 6 16 (by decide) (by decide) (by decide) (by decide)).2.1,
   (time_until_monotone_nonincreasing
      { window_size := 10, max_requests := 1, user_windows := [("u", [5])] }
      { min_interval := 10, last_message_time := [("u", 5)] }
      "u" 6 16 (by decide) (by decide) (by decide) (by decide)).2.2
     (by norm_num [ThrottlingRateLimiter.time_until_next_allowed, lookupKey])⟩

namespace SlidingWindowRateLimiter

/-- An external call to the sliding-window limiter: one of its three public
operations, tagged with the identity it targets. -/
inductive Op where
  | rec_msg (user_id : String)
  | check (user_id : String)
  | wait_query (user_id : String)

/-- One audited step: run the operation at its timestamp against the current
limiter state, and append `(identity, time)` to the audit log whenever
`record_message` returns true. -/
def step (s : SlidingWindowRateLimiter × List (String × ℚ)) (e : Op × ℚ) :
    SlidingWindowRateLimiter × List (String × ℚ) :=
  match e.1 with
  | Op.rec_msg u =>
    let r := record_message s.1 u e.2
    (r.2, if r.1 then s.2 ++ [(u, e.2)] else s.2)
  | Op.check u => ((can_send_message s.1 u e.2).2, s.2)
  | Op.wait_query u => ((time_until_next_allowed s.1 u e.2).2, s.2)

/-- Run a whole trace of operations from an initial limiter state with an
empty audit log. -/
def runTrace (st0 : SlidingWindowRateLimiter) (tr : List (Op × ℚ)) :
    SlidingWindowRateLimiter × List (String × ℚ) :=
  tr.foldl step (st0, [])

/-- The clock is monotonically non-decreasing along the trace, starting no
earlier than the given lower bound. -/
def timesMono : List (Op × ℚ) → ℚ → Prop
  | [], _ => True
  | e :: rest, t0 => t0 ≤ e.2 ∧ timesMono rest e.2

instance timesMonoDecidable : (tr : List (Op × ℚ)) → (t0 : ℚ) →
    Decidable (timesMono tr t0)
  | [], _ => Decidable.isTrue trivial
  | e :: rest, t0 =>
    have : Decidable (timesMono rest e.2) := timesMonoDecidable rest e.2
    inferInstanceAs (Decidable (t0 ≤ e.2 ∧ timesMono rest e.2))

/-- The time of the last event of the trace (or the lower bound when the
trace is empty). -/
def lastTime : List (Op × ℚ) → ℚ → ℚ
  | [], t0 => t0
  | e :: rest, _ => lastTime rest e.2

/-- The timestamp sequence currently stored for an identity (empty when the
identity is absent). -/
def storeOf (st : SlidingWindowRateLimiter) (u : String) : List ℚ :=
  (lookupKey st.user_windows u).getD []

/-- Inductive invariant tying the audit log to the store: configuration is
fixed, the store is a well-formed dict, every stored sequence is within the
cap, and for every cutoff `a` at or after `lastTime - W` the log's accepted
entries above `a` for an identity are exactly its stored entries above `a`
(everything older has been pruned, everything younger is retained). -/
def auditInv (W : ℚ) (M : ℤ) (st : SlidingWindowRateLimiter)
    (acc : List (String × ℚ)) (tl : ℚ) : Prop :=
  st.window_size = W ∧ st.max_requests = M ∧
  keysNodup st.user_windows ∧
  (∀ u, ((storeOf st u).length : ℤ) ≤ M) ∧
  (∀ u a, tl - W ≤ a →
    acc.countP (fun p => decide (p.1 = u) && decide (a < p.2)) =
    (storeOf st u).countP (fun t => decide (a < t)))

theorem storeOf_cleanup_self {st : SlidingWindowRateLimiter} {u : String} {t : ℚ}
    (hnd : keysNodup st.user_windows) :
    storeOf (cleanup_window st u t) u =
      (storeOf st u).dropWhile (fun x => x ≤ t - st.window_size) := by
  cases hk : lookupKey st.user_windows u with
  | none =>
    rw [cleanup_of_none hk]
    simp [storeOf, hk]
  | some w =>
    cases he : (w.dropWhile (fun x => x ≤ t - st.window_size)).isEmpty with
    | true =>
      rw [storeOf, lookup_cleanup_self_of_empty hnd hk he]
      have hwe : w.dropWhile (fun x => x ≤ t - st.window_size) = [] :=
        List.isEmpty_iff.mp he
      simp [storeOf, hk, hwe]
    | false =>
      rw [storeOf, lookup_cleanup_self_of_nonempty hk he]
      simp [storeOf, hk]

theorem storeOf_cleanup_ne {st : SlidingWindowRateLimiter} {u v : String} {t : ℚ}
    (huv : u ≠ v) : storeOf (cleanup_window st u t) v = storeOf st v := by
  rw [storeOf, lookup_cleanup_ne huv, storeOf]

theorem auditInv_cleanup {W : ℚ} {M : ℤ} {st : SlidingWindowRateLimiter}
    {acc : List (String × ℚ)} {tl t : ℚ} {u : String}
    (hInv : auditInv W M st acc tl) (ht : tl ≤ t) :
    auditInv W M (cleanup_window st u t) acc t := by
  obtain ⟨hw, hm, hnd, hlen, hcnt⟩ := hInv
  refine ⟨by rw [window_size_cleanup, hw], by rw [max_requests_cleanup, hm],
    keysNodup_cleanup hnd, ?_, ?_⟩
  · intro v
    by_cases hv : u = v
    · subst hv
      rw [storeOf_cleanup_self hnd]
      calc (((storeOf st u).dropWhile (fun x => x ≤ t - st.window_size)).length : ℤ)
          ≤ ((storeOf st u).length : ℤ) :=
            Int.ofNat_le.mpr (length_dropWhile_le_len _ _)
        _ ≤ M := hlen u
    · rw [storeOf_cleanup_ne hv]
      exact hlen v
  · intro v a ha
    have ha0 : tl - W ≤ a := by linarith
    by_cases hv : u = v
    · subst hv
      rw [storeOf_cleanup_self hnd, hw]
      rw [countP_dropWhile_le (by linarith : t - W ≤ a)]
      exact hcnt u a ha0
    · rw [storeOf_cleanup_ne hv]
      exact hcnt v a ha0

theorem can_send_true_classify {st : SlidingWindowRateLimiter} {u : String}
    {now : ℚ} (h : (can_send_message st u now).1 = true) :
    lookupKey (cleanup_window st u now).user_windows u = none ∨
    ∃ w, lookupKey (cleanup_window st u now).user_windows u = some w ∧
      (w.length : ℤ) < st.max_requests := by
  cases hk : lookupKey (cleanup_window st u now).user_windows u with
  | none => exact Or.inl rfl
  | some w =>
    right
    refine ⟨w, rfl, ?_⟩
    rw [can_send_fst_of_some hk] at h
    exact of_decide_eq_true h

end SlidingWindowRateLimiter

namespace SlidingWindowRateLimiter

theorem auditInv_record {W : ℚ} {M : ℤ} {st : SlidingWindowRateLimiter}
    {acc : List (String × ℚ)} {tl t : ℚ} {u : String} (hM : 1 ≤ M)
    (hInv : auditInv W M st acc tl) (ht : tl ≤ t) :
    auditInv W M (record_message st u t).2
      (if (record_message st u t).1 then acc ++ [(u, t)] else acc) t := by
  have hInv1 : auditInv W M (cleanup_window st u t) acc t := auditInv_cleanup hInv ht
  have hInv2 : auditInv W M (cleanup_window (cleanup_window st u t) u t) acc t :=
    auditInv_cleanup hInv1 (le_refl t)
  cases hok : (can_send_message (cleanup_window st u t) u t).1 with
  | false =>
    rw [record_of_notok hok, can_send_snd]
    simpa using hInv2
  | true =>
    rw [record_of_ok hok, can_send_snd]
    simp only [if_true]
    obtain ⟨hw2, hm2, hnd2, hlen2, hcnt2⟩ := hInv2
    have hcap : ((storeOf (cleanup_window (cleanup_window st u t) u t) u).length : ℤ) + 1
        ≤ M := by
      rcases can_send_true_classify hok with hnone | ⟨w, hsome, hlt⟩
      · rw [storeOf, hnone]
        simpa using hM
      · rw [storeOf, hsome]
        have hmax : (cleanup_window st u t).max_requests = M := hInv1.2.1
        rw [hmax] at hlt
        simpa using hlt
    refine ⟨?_, ?_, ?_, ?_, ?_⟩
    · show (cleanup_window (cleanup_window st u t) u t).window_size = W
      exact hw2
    · show (cleanup_window (cleanup_window st u t) u t).max_requests = M
      exact hm2
    · exact AList.keysNodup_setKey _ _ _ hnd2
    · intro v
      by_cases hv : u = v
      · subst hv
        have hself : storeOf
            { cleanup_window (cleanup_window st u t) u t with
              user_windows := setKey
                (cleanup_window (cleanup_window st u t) u t).user_windows u
                ((lookupKey (cleanup_window (cleanup_window st u t) u t).user_windows u).getD []
                  ++ [t]) } u =
            storeOf (cleanup_window (cleanup_window st u t) u t) u ++ [t] := by
          rw [storeOf]
          show (lookupKey (setKey _ u _) u).getD [] = _
          rw [AList.lookupKey_setKey_self]
          rfl
        rw [hself]
        simpa using hcap
      · have hne : storeOf
            { cleanup_window (cleanup_window st u t) u t with
              user_windows := setKey
                (cleanup_window (cleanup_window st u t) u t).user_windows u
                ((lookupKey (cleanup_window (cleanup_window st u t) u t).user_windows u).getD []
                  ++ [t]) } v =
            storeOf (cleanup_window (cleanup_window st u t) u t) v := by
          rw [storeOf]
          show (lookupKey (setKey _ u _) v).getD [] = _
          rw [AList.lookupKey_setKey_ne _ _ _ _ hv]
          rfl
        rw [hne]
        exact hlen2 v
    · intro v a ha
      rw [List.countP_append]
      by_cases hv : u = v
      · subst hv
        have hself : storeOf
            { cleanup_window (cleanup_window st u t) u t with
              user_windows := setKey
                (cleanup_window (cleanup_window st u t) u t).user_windows u
                ((lookupKey (cleanup_window (cleanup_window st u t) u t).user_windows u).getD []
                  ++ [t]) } u =
            storeOf (cleanup_window (cleanup_window st u t) u t) u ++ [t] := by
          rw [storeOf]
          show (lookupKey (setKey _ u _) u).getD [] = _
          rw [AList.lookupKey_setKey_self]
          rfl
        rw [hself, List.countP_append, hcnt2 u a ha]
        simp [List.countP_cons]
      · have hne : storeOf
            { cleanup_window (cleanup_window st u t) u t with
              user_windows := setKey
                (cleanup_window (cleanup_window st u t) u t).user_windows u
                ((lookupKey (cleanup_window (cleanup_window st u t) u t).user_windows u).getD []
                  ++ [t]) } v =
            storeOf (cleanup_window (cleanup_window st u t) u t) v := by
          rw [storeOf]
          show (lookupKey (setKey _ u _) v).getD [] = _
          rw [AList.lookupKey_setKey_ne _ _ _ _ hv]
          rfl
        rw [hne, hcnt2 v a ha]
        have hz : List.countP (fun p => decide (p.1 = v) && decide (a < p.2))
            [(u, t)] = 0 := by
          simp [List.countP_cons, hv]
        rw [hz, Nat.add_zero]
  
theorem step_inv {W : ℚ} {M : ℤ} (hM : 1 ≤ M)
    (s : SlidingWindowRateLimiter × List (String × ℚ)) (e : Op × ℚ) (tl : ℚ)
    (hInv : auditInv W M s.1 s.2 tl) (ht : tl ≤ e.2) :
    auditInv W M (step s e).1 (step s e).2 e.2 := by
  obtain ⟨st, acc⟩ := s
  obtain ⟨op, t⟩ := e
  cases op with
  | rec_msg u =>
    simpa [step] using auditInv_record hM hInv ht
  | check u =>
    simp only [step, can_send_snd]
    exact auditInv_cleanup hInv ht
  | wait_query u =>
    simp only [step, tu_snd]
    exact auditInv_cleanup hInv ht

theorem run_inv {W : ℚ} {M : ℤ} (hM : 1 ≤ M) :
    ∀ (tr : List (Op × ℚ)) (s : SlidingWindowRateLimiter × List (String × ℚ))
      (tl : ℚ), auditInv W M s.1 s.2 tl → timesMono tr tl →
      auditInv W M (tr.foldl step s).1 (tr.foldl step s).2 (lastTime tr tl) := by
  intro tr
  induction tr with
  | nil =>
    intro s tl hInv hmono
    exact hInv
  | cons e rest ih =>
    intro s tl hInv hmono
    obtain ⟨h1, h2⟩ := hmono
    simp only [List.foldl_cons, lastTime]
    exact ih (step s e) e.2 (step_inv hM s e tl hInv h1) h2

end SlidingWindowRateLimiter

/-- C1: sliding-window admission bound.  Starting from a fresh limiter, for
any sequence of operations under a monotonically non-decreasing clock and
any probe time `now` at or after the last event, the number of accepted
`record_message` calls for an identity whose timestamps lie in the half-open
trailing interval `(now - window_size, now]` never exceeds `max_requests`
(for a positive cap, as the spec requires of the configuration). -/
theorem sliding_window_admission_bound (W : ℚ) (M : ℤ) (hM : 1 ≤ M)
    (tr : List (SlidingWindowRateLimiter.Op × ℚ)) (t0 now : ℚ)
    (hmono : SlidingWindowRateLimiter.timesMono tr t0)
    (hnow : SlidingWindowRateLimiter.lastTime tr t0 ≤ now) (u : String) :
    (((SlidingWindowRateLimiter.runTrace (SlidingWindowRateLimiter.init W M) tr).2.countP
        (fun p => decide (p.1 = u) && decide (now - W < p.2) && decide (p.2 ≤ now)) : ℤ))
      ≤ M := by
  have h0 : SlidingWindowRateLimiter.auditInv W M
      (SlidingWindowRateLimiter.init W M) [] t0 := by
    refine ⟨rfl, rfl, ?_, ?_, ?_⟩
    · show (([] : List (String × List ℚ)).map Prod.fst).Nodup
      simp
    · intro v
      show (((lookupKey ([] : List (String × List ℚ)) v).getD []).length : ℤ) ≤ M
      simp only [lookupKey, Option.getD_none, List.length_nil, Int.natCast_zero]
      linarith
    · intro v a ha
      rfl
  have hfin := SlidingWindowRateLimiter.run_inv hM tr
    (SlidingWindowRateLimiter.init W M, []) t0 h0 hmono
  obtain ⟨hw, hm, hnd, hlen, hcnt⟩ := hfin
  have hrun : SlidingWindowRateLimiter.runTrace (SlidingWindowRateLimiter.init W M) tr
      = tr.foldl SlidingWindowRateLimiter.step (SlidingWindowRateLimiter.init W M, []) :=
    rfl
  rw [hrun]
  have h1 : (tr.foldl SlidingWindowRateLimiter.step
        (SlidingWindowRateLimiter.init W M, [])).2.countP
        (fun p => decide (p.1 = u) && decide (now - W < p.2) && decide (p.2 ≤ now))
      ≤ (tr.foldl SlidingWindowRateLimiter.step
        (SlidingWindowRateLimiter.init W M, [])).2.countP
        (fun p => decide (p.1 = u) && decide (now - W < p.2)) := by
    refine List.countP_mono_left ?_
    intro p hp hfull
    simp only [Bool.and_eq_true, decide_eq_true_eq] at hfull
    simp only [Bool.and_eq_true, decide_eq_true_eq]
    exact hfull.1
  have h2 := hcnt u (now - W) (by linarith)
  have h3 : (SlidingWindowRateLimiter.storeOf
        (tr.foldl SlidingWindowRateLimiter.step
          (SlidingWindowRateLimiter.init W M, [])).1 u).countP
        (fun t => decide (now - W < t))
      ≤ (SlidingWindowRateLimiter.storeOf
        (tr.foldl SlidingWindowRateLimiter.step
          (SlidingWindowRateLimiter.init W M, [])).1 u).length :=
    List.countP_le_length _
  calc (((tr.foldl SlidingWindowRateLimiter.step
        (SlidingWindowRateLimiter.init W M, [])).2.countP
        (fun p => decide (p.1 = u) && decide (now - W < p.2) && decide (p.2 ≤ now)) : ℤ))
      ≤ (((tr.foldl SlidingWindowRateLimiter.step
        (SlidingWindowRateLimiter.init W M, [])).2.countP
        (fun p => decide (p.1 = u) && decide (now - W < p.2)) : ℤ)) :=
        Int.ofNat_le.mpr h1
    _ = ((SlidingWindowRateLimiter.storeOf
        (tr.foldl SlidingWindowRateLimiter.step
          (SlidingWindowRateLimiter.init W M, [])).1 u).countP
        (fun t => decide (now - W < t)) : ℤ) := by rw [h2]
    _ ≤ ((SlidingWindowRateLimiter.storeOf
        (tr.foldl SlidingWindowRateLimiter.step
          (SlidingWindowRateLimiter.init W M, [])).1 u).length : ℤ) :=
        Int.ofNat_le.mpr h3
    _ ≤ M := hlen u

/-- Witness for `sliding_window_admission_bound`: two back-to-back records
for the same user with window 10 and cap 1; only one is accepted, and the
audit count over `(6 - 10, 6]` is at most 1. -/
theorem sliding_window_admission_bound_w :
    (((SlidingWindowRateLimiter.runTrace (SlidingWindowRateLimiter.init 10 1)
        [(SlidingWindowRateLimiter.Op.rec_msg "u", 0),
         (SlidingWindowRateLimiter.Op.rec_msg "u", 5)]).2.countP
        (fun p => decide (p.1 = "u") && decide ((6:ℚ) - 10 < p.2) && decide (p.2 ≤ 6)) : ℤ))
      ≤ 1 :=
  sliding_window_admission_bound 10 1 (by decide)
    [(SlidingWindowRateLimiter.Op.rec_msg "u", 0),
     (SlidingWindowRateLimiter.Op.rec_msg "u", 5)]
    0 6 (by decide) (by decide) "u"
